import Mathlib

/-!
# Verification of the skchat secure-communication core

Shallow embedding of the parts of `skchat` that the specification's claims
are about: the group key lifecycle (`src/skchat/group.py`), the group
message cipher (AES-256-GCM as used by `GroupMessageEncryptor`), the
chunked file-transfer receiver (`src/skchat/files.py`), the ephemeral
message reaper (`src/skchat/ephemeral.py`) and the per-message crypto
no-op branches (`src/skchat/crypto.py`).

Modelling conventions:
* Python `bytes` values are `List Nat` with every entry `< 256`.
* A hex-encoded key (`bytes.fromhex` / `.hex()` boundary) is modelled by
  the decoded byte list itself.
* `os.urandom` draws and `datetime.now` reads are oracle inputs: every
  operation that consumes fresh randomness or the clock takes the drawn
  value as an explicit argument.
* The external `cryptography` library's `AESGCM` is modelled by a full
  executable AES-256-GCM (FIPS-197 block cipher, NIST SP 800-38D mode);
  an authentication failure, surfaced in Python as `InvalidTag`, is an
  `Except.error`.
* Python `base64.b64encode`/`b64decode` are modelled on `List Nat` /
  `List Char`.
-/

/-! ## Base64 (models Python `base64.b64encode` / `b64decode`) -/

/-- The base64 alphabet: value `n < 64` to its character. -/
def b64encC (n : Nat) : Char :=
  if n < 26 then Char.ofNat (65 + n)
  else if n < 52 then Char.ofNat (97 + (n - 26))
  else if n < 62 then Char.ofNat (48 + (n - 52))
  else if n = 62 then '+' else '/'

/-- Inverse of the base64 alphabet. -/
def b64decC (c : Char) : Nat :=
  let k := c.toNat
  if 65 ≤ k ∧ k ≤ 90 then k - 65
  else if 97 ≤ k ∧ k ≤ 122 then k - 97 + 26
  else if 48 ≤ k ∧ k ≤ 57 then k - 48 + 52
  else if k = 43 then 62 else 63

/-- Base64-encode a byte list, padding with `=` as Python's
`base64.b64encode` does. -/
def b64encode : List Nat → List Char
  | [] => []
  | [a] => [b64encC (a / 4), b64encC (a % 4 * 16), '=', '=']
  | [a, b] => [b64encC (a / 4), b64encC (a % 4 * 16 + b / 16), b64encC (b % 16 * 4), '=']
  | a :: b :: c :: rest =>
      b64encC (a / 4) :: b64encC (a % 4 * 16 + b / 16) :: b64encC (b % 16 * 4 + c / 64)
        :: b64encC (c % 64) :: b64encode rest

/-- Base64-decode; on well-padded input (everything `b64encode` produces)
this is Python's `base64.b64decode`. -/
def b64decode : List Char → List Nat
  | c1 :: c2 :: c3 :: c4 :: rest =>
      if c3 = '=' then [b64decC c1 * 4 + b64decC c2 / 16]
      else if c4 = '=' then
        [b64decC c1 * 4 + b64decC c2 / 16, b64decC c2 % 16 * 16 + b64decC c3 / 4]
      else
        [b64decC c1 * 4 + b64decC c2 / 16, b64decC c2 % 16 * 16 + b64decC c3 / 4,
          b64decC c3 % 4 * 64 + b64decC c4] ++ b64decode rest
  | _ => []

theorem b64decC_encC : ∀ n : Fin 64, b64decC (b64encC n.val) = n.val := by decide

theorem b64decC_encC' {n : Nat} (h : n < 64) : b64decC (b64encC n) = n :=
  b64decC_encC ⟨n, h⟩

theorem b64encC_ne_pad : ∀ n : Fin 64, b64encC n.val ≠ '=' := by decide

theorem b64encC_ne_pad' {n : Nat} (h : n < 64) : b64encC n ≠ '=' :=
  b64encC_ne_pad ⟨n, h⟩

/-- Decoding inverts encoding on byte lists. -/
theorem b64decode_encode : ∀ l : List Nat, (∀ b ∈ l, b < 256) →
    b64decode (b64encode l) = l
  | [], _ => by simp [b64encode, b64decode]
  | [a], h => by
      have ha : a < 256 := h a (by simp)
      simp only [b64encode, b64decode, if_true]
      rw [b64decC_encC' (show a / 4 < 64 by omega),
        b64decC_encC' (show a % 4 * 16 < 64 by omega)]
      simp only [List.cons.injEq, and_true]
      omega
  | [a, b], h => by
      have ha : a < 256 := h a (by simp)
      have hb : b < 256 := h b (by simp)
      simp only [b64encode, b64decode]
      rw [if_neg (b64encC_ne_pad' (show b % 16 * 4 < 64 by omega))]
      simp only [if_true]
      rw [b64decC_encC' (show a / 4 < 64 by omega),
        b64decC_encC' (show a % 4 * 16 + b / 16 < 64 by omega),
        b64decC_encC' (show b % 16 * 4 < 64 by omega)]
      simp only [List.cons.injEq, and_true]
      omega
  | a :: b :: c :: rest, h => by
      have ha : a < 256 := h a (by simp)
      have hb : b < 256 := h b (by simp)
      have hc : c < 256 := h c (by simp)
      have hrest : ∀ x ∈ rest, x < 256 := fun x hx => h x (by simp [hx])
      simp only [b64encode, b64decode]
      rw [if_neg (b64encC_ne_pad' (show b % 16 * 4 + c / 64 < 64 by omega)),
        if_neg (b64encC_ne_pad' (show c % 64 < 64 by omega)),
        b64decC_encC' (show a / 4 < 64 by omega),
        b64decC_encC' (show a % 4 * 16 + b / 16 < 64 by omega),
        b64decC_encC' (show b % 16 * 4 + c / 64 < 64 by omega),
        b64decC_encC' (show c % 64 < 64 by omega),
        b64decode_encode rest hrest]
      simp only [List.cons_append, List.nil_append, List.cons.injEq]
      refine ⟨?_, ?_, ?_, trivial⟩ <;> omega

/-! ## AES-256 block cipher (FIPS-197), modelling the external
`cryptography` library's cipher core. Bytes are `Nat` values `< 256`. -/

/-- Rotate an 8-bit value left by `n` bits. -/
def rotl8 (x n : Nat) : Nat := (x * 2 ^ n + x / 2 ^ (8 - n)) % 256

/-- Doubling in GF(2^8) modulo the AES polynomial `x^8 + x^4 + x^3 + x + 1`. -/
def xtime (b : Nat) : Nat := if b < 128 then 2 * b else (2 * b - 256) ^^^ 27

/-- Russian-peasant multiplication in GF(2^8), 8 bit-steps. -/
def gmulGo : Nat → Nat → Nat → Nat
  | 0, _, _ => 0
  | f + 1, a, b => (if b % 2 = 1 then a else 0) ^^^ gmulGo f (xtime a) (b / 2)

def gmul (a b : Nat) : Nat := gmulGo 8 a b

def gpow (a : Nat) : Nat → Nat
  | 0 => 1
  | n + 1 => gmul a (gpow a n)

/-- The AES S-box: multiplicative inverse in GF(2^8) followed by the
affine transform. -/
def sbox (b : Nat) : Nat :=
  let inv := if b = 0 then 0 else gpow b 254
  inv ^^^ rotl8 inv 1 ^^^ rotl8 inv 2 ^^^ rotl8 inv 3 ^^^ rotl8 inv 4 ^^^ 0x63

def subBytes (s : List Nat) : List Nat := s.map sbox

/-- ShiftRows on the 16-byte state in input order (`state[r][c] = s[4*c+r]`). -/
def shiftRows (s : List Nat) : List Nat :=
  [0, 5, 10, 15, 4, 9, 14, 3, 8, 13, 2, 7, 12, 1, 6, 11].map (fun i => s.getD i 0)

def mixColumn (a0 a1 a2 a3 : Nat) : List Nat :=
  [xtime a0 ^^^ (xtime a1 ^^^ a1) ^^^ a2 ^^^ a3,
   a0 ^^^ xtime a1 ^^^ (xtime a2 ^^^ a2) ^^^ a3,
   a0 ^^^ a1 ^^^ xtime a2 ^^^ (xtime a3 ^^^ a3),
   (xtime a0 ^^^ a0) ^^^ a1 ^^^ a2 ^^^ xtime a3]

def mixColumns (s : List Nat) : List Nat :=
  ((List.range 4).map (fun c =>
    mixColumn (s.getD (4 * c) 0) (s.getD (4 * c + 1) 0)
      (s.getD (4 * c + 2) 0) (s.getD (4 * c + 3) 0))).flatten

def addRoundKey (s rk : List Nat) : List Nat := List.zipWith (· ^^^ ·) s rk

def subWord (w : List Nat) : List Nat := w.map sbox

def rotWord (w : List Nat) : List Nat := w.drop 1 ++ w.take 1

/-- Round-constant byte: `rconPow j = x^j` in GF(2^8). -/
def rconPow : Nat → Nat
  | 0 => 1
  | j + 1 => xtime (rconPow j)

/-- AES-256 key schedule: expand the 32-byte key to 60 four-byte words. -/
def expandKey (key : List Nat) : List (List Nat) :=
  let w0 := (List.range 8).map (fun i => (key.drop (4 * i)).take 4)
  (List.range 52).foldl (fun ws _ =>
    let i := ws.length
    let prev := ws.getD (i - 1) []
    let temp :=
      if i % 8 = 0 then
        List.zipWith (· ^^^ ·) (subWord (rotWord prev)) [rconPow (i / 8 - 1), 0, 0, 0]
      else if i % 8 = 4 then subWord prev
      else prev
    ws ++ [List.zipWith (· ^^^ ·) (ws.getD (i - 8) []) temp]) w0

/-- The fifteen 16-byte round keys of AES-256. -/
def roundKeys (key : List Nat) : List (List Nat) :=
  let ws := expandKey key
  (List.range 15).map (fun r =>
    ws.getD (4 * r) [] ++ ws.getD (4 * r + 1) [] ++ ws.getD (4 * r + 2) []
      ++ ws.getD (4 * r + 3) [])

/-- AES-256 forward block transformation on a 16-byte block. -/
def aesEncryptBlock (key block : List Nat) : List Nat :=
  let rks := roundKeys key
  let s0 := addRoundKey block (rks.getD 0 [])
  let sN := (List.range 13).foldl
    (fun s r => addRoundKey (mixColumns (shiftRows (subBytes s))) (rks.getD (r + 1) [])) s0
  addRoundKey (shiftRows (subBytes sN)) (rks.getD 14 [])

/-! ## GCM mode (NIST SP 800-38D) -/

/-- Big-endian bytes-to-number. -/
def bytesToNat (bs : List Nat) : Nat := bs.foldl (fun a b => a * 256 + b) 0

/-- Big-endian number-to-bytes of a fixed width. -/
def natToBytes (len n : Nat) : List Nat :=
  (List.range len).map (fun i => n / 256 ^ (len - 1 - i) % 256)

/-- One step of the GF(2^128) reflected shift: divide by x. -/
def gcmVstep (v : Nat) : Nat :=
  if v % 2 = 0 then v / 2 else v / 2 ^^^ 0xE1 * 2 ^ 120

/-- Multiplication in GF(2^128) with the reflected bit order of GCM. -/
def gcmMul (x y : Nat) : Nat :=
  ((List.range 128).foldl
    (fun zv i =>
      (if x.testBit (127 - i) then zv.1 ^^^ zv.2 else zv.1, gcmVstep zv.2))
    (0, y)).1

/-- GHASH over a list of 128-bit blocks. -/
def ghash (h : Nat) (blocks : List Nat) : Nat :=
  blocks.foldl (fun y b => gcmMul (y ^^^ b) h) 0

/-- Split a byte string into 128-bit blocks, zero-padding the last. -/
def toBlocks : List Nat → List Nat
  | [] => []
  | b :: bs =>
      bytesToNat (((b :: bs).take 16) ++ List.replicate (16 - (b :: bs).length) 0)
        :: toBlocks ((b :: bs).drop 16)
  termination_by l => l.length
  decreasing_by simp; omega

/-- AES block applied to a 128-bit value. -/
def aesBlockNat (key : List Nat) (x : Nat) : Nat :=
  bytesToNat (aesEncryptBlock key (natToBytes 16 x))

/-- The GHASH subkey `H = E_K(0^128)`. -/
def gcmH (key : List Nat) : Nat := aesBlockNat key 0

/-- The block holding the two 64-bit bit-lengths. -/
def lenBlock (a c : Nat) : Nat := 8 * a % 2 ^ 64 * 2 ^ 64 + 8 * c % 2 ^ 64

/-- The pre-counter block `J0`. -/
def gcmJ0 (key nonce : List Nat) : Nat :=
  if nonce.length = 12 then bytesToNat (nonce ++ [0, 0, 0, 1])
  else ghash (gcmH key) (toBlocks nonce ++ [lenBlock 0 nonce.length])

/-- `inc32` applied `i` times: add `i` into the low 32 bits. -/
def inc32 (x i : Nat) : Nat := x / 2 ^ 32 * 2 ^ 32 + (x + i) % 2 ^ 32

/-- Byte `j` of the CTR keystream (counter blocks start at `inc32 J0 1`). -/
def ksByte (key : List Nat) (j0 j : Nat) : Nat :=
  aesBlockNat key (inc32 j0 (1 + j / 16)) / 256 ^ (15 - j % 16) % 256

/-- The first `n` CTR keystream bytes. -/
def keystream (key : List Nat) (j0 n : Nat) : List Nat :=
  (List.range n).map (ksByte key j0)

/-- CTR-encrypted message body. -/
def ctrBody (key nonce pt : List Nat) : List Nat :=
  List.zipWith (· ^^^ ·) pt (keystream key (gcmJ0 key nonce) pt.length)

/-- The 128-bit authentication tag over the ciphertext (no AAD). -/
def gcmTagNat (key nonce ct : List Nat) : Nat :=
  ghash (gcmH key) (toBlocks ct ++ [lenBlock 0 ct.length])
    ^^^ aesBlockNat key (gcmJ0 key nonce)

def gcmTagBytes (key nonce ct : List Nat) : List Nat :=
  natToBytes 16 (gcmTagNat key nonce ct)

/-- `AESGCM(key).encrypt(nonce, pt, None)`: ciphertext body followed by
the 16-byte tag. -/
def aesgcmEncrypt (key nonce pt : List Nat) : List Nat :=
  ctrBody key nonce pt ++ gcmTagBytes key nonce (ctrBody key nonce pt)

/-- `AESGCM(key).decrypt(nonce, data, None)`: check the trailing 16-byte
tag, yield the decrypted body, or fail as `InvalidTag` does. -/
def aesgcmDecrypt (key nonce data : List Nat) : Except String (List Nat) :=
  if data.length < 16 then Except.error "InvalidTag"
  else
    let body := data.take (data.length - 16)
    let tag := data.drop (data.length - 16)
    if gcmTagBytes key nonce body = tag then
      Except.ok (List.zipWith (· ^^^ ·) body (keystream key (gcmJ0 key nonce) body.length))
    else Except.error "InvalidTag"

/-! ## The group message cipher (`GroupMessageEncryptor` in
`src/skchat/group.py`): base64(nonce + AES-GCM(pt)). -/

namespace GroupMessageEncryptor

/-- `GroupMessageEncryptor.encrypt`: AES-256-GCM under the group key with
a fresh 12-byte nonce (here an oracle argument), base64-encoded as
`nonce + ciphertext + tag`. -/
def encrypt (pt key nonce : List Nat) : List Char :=
  b64encode (nonce ++ aesgcmEncrypt key nonce pt)

/-- `GroupMessageEncryptor.decrypt`: split the first 12 bytes off as the
nonce and AES-GCM-decrypt the remainder; an authentication failure is
re-raised as `ValueError("Group message decryption failed: ...")`. -/
def decrypt (enc : List Char) (key : List Nat) : Except String (List Nat) :=
  let raw := b64decode enc
  match aesgcmDecrypt key (raw.take 12) (raw.drop 12) with
  | Except.ok pt => Except.ok pt
  | Except.error e => Except.error ("Group message decryption failed: " ++ e)

end GroupMessageEncryptor

/-! ### Support lemmas for the cipher -/

theorem xor_lt_256 {a b : Nat} (ha : a < 256) (hb : b < 256) : a ^^^ b < 256 := by
  have h := Nat.bitwise_lt (f := bne) (x := a) (y := b) (n := 8)
    (by simpa using ha) (by simpa using hb)
  simpa [Nat.xor] using h

theorem length_keystream (key : List Nat) (j0 n : Nat) :
    (keystream key j0 n).length = n := by
  simp [keystream]

theorem keystream_bytes_lt (key : List Nat) (j0 n : Nat) :
    ∀ b ∈ keystream key j0 n, b < 256 := by
  intro b hb
  simp only [keystream, List.mem_map] at hb
  obtain ⟨j, _, rfl⟩ := hb
  exact Nat.mod_lt _ (by norm_num)

theorem natToBytes_length (len n : Nat) : (natToBytes len n).length = len := by
  simp [natToBytes]

theorem natToBytes_bytes_lt (len n : Nat) : ∀ b ∈ natToBytes len n, b < 256 := by
  intro b hb
  simp only [natToBytes, List.mem_map] at hb
  obtain ⟨j, _, rfl⟩ := hb
  exact Nat.mod_lt _ (by norm_num)

theorem zipWith_xor_bytes_lt :
    ∀ (l k : List Nat), (∀ b ∈ l, b < 256) → (∀ b ∈ k, b < 256) →
      ∀ b ∈ List.zipWith (· ^^^ ·) l k, b < 256
  | [], _, _, _ => by simp
  | _ :: _, [], _, _ => by simp
  | a :: l, c :: k, hl, hk => by
      intro b hb
      simp only [List.zipWith_cons_cons, List.mem_cons] at hb
      rcases hb with rfl | hb
      · exact xor_lt_256 (hl a (by simp)) (hk c (by simp))
      · exact zipWith_xor_bytes_lt l k (fun x hx => hl x (by simp [hx]))
          (fun x hx => hk x (by simp [hx])) b hb

theorem ctrBody_length (key nonce pt : List Nat) :
    (ctrBody key nonce pt).length = pt.length := by
  simp [ctrBody, length_keystream]

theorem ctrBody_bytes_lt (key nonce pt : List Nat) (hpt : ∀ b ∈ pt, b < 256) :
    ∀ b ∈ ctrBody key nonce pt, b < 256 :=
  zipWith_xor_bytes_lt pt _ hpt (keystream_bytes_lt _ _ _)

/-- XOR-ing twice with the same keystream gives back the message. -/
theorem zipWith_xor_cancel :
    ∀ (l k : List Nat), l.length ≤ k.length →
      List.zipWith (· ^^^ ·) (List.zipWith (· ^^^ ·) l k) k = l
  | [], _, _ => by simp
  | a :: l, [], h => by simp at h
  | a :: l, c :: k, h => by
      simp only [List.zipWith_cons_cons]
      rw [zipWith_xor_cancel l k (by simpa using h)]
      simp [Nat.xor_cancel_right]

/-- AES-GCM round trip at the byte level. -/
theorem aesgcm_roundtrip (key nonce pt : List Nat) :
    aesgcmDecrypt key nonce (aesgcmEncrypt key nonce pt) = Except.ok pt := by
  have hct : (ctrBody key nonce pt).length = pt.length := ctrBody_length key nonce pt
  have htag : (gcmTagBytes key nonce (ctrBody key nonce pt)).length = 16 :=
    natToBytes_length 16 _
  have hlen : (aesgcmEncrypt key nonce pt).length = pt.length + 16 := by
    simp [aesgcmEncrypt, hct, htag]
  rw [aesgcmDecrypt, if_neg (by omega)]
  have hsub : (aesgcmEncrypt key nonce pt).length - 16 = (ctrBody key nonce pt).length := by
    omega
  rw [aesgcmEncrypt] at hsub ⊢
  rw [hsub, List.take_left, List.drop_left, if_pos rfl, hct, ctrBody,
    zipWith_xor_cancel pt _ (by rw [length_keystream])]


/-- Bytes of `encrypt`'s pre-base64 payload are in range. -/
theorem encrypt_payload_bytes_lt (key nonce pt : List Nat)
    (hpt : ∀ b ∈ pt, b < 256) (hnb : ∀ b ∈ nonce, b < 256) :
    ∀ b ∈ nonce ++ aesgcmEncrypt key nonce pt, b < 256 := by
  intro b hb
  rcases List.mem_append.mp hb with h | h
  · exact hnb b h
  · simp only [aesgcmEncrypt] at h
    rcases List.mem_append.mp h with h2 | h2
    · exact ctrBody_bytes_lt key nonce pt hpt b h2
    · exact natToBytes_bytes_lt 16 _ b h2

/-- What decrypting (under a possibly different key) an honestly encrypted
message reduces to: success exactly when the recomputed tag matches. -/
theorem decrypt_encrypt_char (pt key key2 nonce : List Nat)
    (hn : nonce.length = 12) (hpt : ∀ b ∈ pt, b < 256) (hnb : ∀ b ∈ nonce, b < 256) :
    GroupMessageEncryptor.decrypt (GroupMessageEncryptor.encrypt pt key nonce) key2
      = if gcmTagBytes key2 nonce (ctrBody key nonce pt)
            = gcmTagBytes key nonce (ctrBody key nonce pt)
        then Except.ok (List.zipWith (· ^^^ ·) (ctrBody key nonce pt)
               (keystream key2 (gcmJ0 key2 nonce) pt.length))
        else Except.error "Group message decryption failed: InvalidTag" := by
  have hct : (ctrBody key nonce pt).length = pt.length := ctrBody_length key nonce pt
  have htag : (gcmTagBytes key nonce (ctrBody key nonce pt)).length = 16 :=
    natToBytes_length 16 _
  have hlen : (aesgcmEncrypt key nonce pt).length = pt.length + 16 := by
    simp [aesgcmEncrypt, hct, htag]
  simp only [GroupMessageEncryptor.decrypt, GroupMessageEncryptor.encrypt]
  rw [b64decode_encode _ (encrypt_payload_bytes_lt key nonce pt hpt hnb),
    List.take_left' hn, List.drop_left' hn]
  rw [aesgcmDecrypt, if_neg (by omega)]
  have hsub : (aesgcmEncrypt key nonce pt).length - 16 = (ctrBody key nonce pt).length := by
    omega
  rw [aesgcmEncrypt] at hsub ⊢
  rw [hsub, List.take_left, List.drop_left]
  by_cases hcond : gcmTagBytes key2 nonce (ctrBody key nonce pt)
      = gcmTagBytes key nonce (ctrBody key nonce pt)
  · rw [if_pos hcond, if_pos hcond]
    simp [hct]
  · rw [if_neg hcond, if_neg hcond]
    rfl

/-- C2.
For every plaintext `P` (as its UTF-8 bytes) and every 32-byte group
secret `S`: `GroupMessageEncryptor.decrypt (GroupMessageEncryptor.encrypt
P S) S = P` — the group symmetric cipher round-trips. The fresh 12-byte
nonce drawn inside `encrypt` is the oracle argument `nonce`. -/
theorem group_cipher_roundtrip (pt key nonce : List Nat)
    (hk : key.length = 32) (hn : nonce.length = 12)
    (hpt : ∀ b ∈ pt, b < 256) (hnb : ∀ b ∈ nonce, b < 256) :
    GroupMessageEncryptor.decrypt (GroupMessageEncryptor.encrypt pt key nonce) key
      = Except.ok pt := by
  simp only [GroupMessageEncryptor.decrypt, GroupMessageEncryptor.encrypt]
  rw [b64decode_encode _ (encrypt_payload_bytes_lt key nonce pt hpt hnb),
    List.take_left' hn, List.drop_left' hn, aesgcm_roundtrip]

/-- Concrete witness for C2. -/
theorem group_cipher_roundtrip_witness :
    GroupMessageEncryptor.decrypt
      (GroupMessageEncryptor.encrypt [72, 105, 33]
        [0, 1, 2, 3, 4, 5, 6, 7, 8, 9, 10, 11, 12, 13, 14, 15, 16, 17, 18, 19,
          20, 21, 22, 23, 24, 25, 26, 27, 28, 29, 30, 31]
        [100, 101, 102, 103, 104, 105, 106, 107, 108, 109, 110, 111])
      [0, 1, 2, 3, 4, 5, 6, 7, 8, 9, 10, 11, 12, 13, 14, 15, 16, 17, 18, 19,
        20, 21, 22, 23, 24, 25, 26, 27, 28, 29, 30, 31]
      = Except.ok [72, 105, 33] :=
  group_cipher_roundtrip _ _ _ (by decide) (by decide) (by decide) (by decide)

/-- C3 (amended).
Decrypting `encrypt(P, S)` under a different 32-byte secret fails with the
typed authentication error (Python: `ValueError("Group message decryption
failed: ...")` wrapping `InvalidTag`) unless the GCM authentication tag
recomputed under the wrong key collides with the original tag; it never
returns plaintext without the tag check passing. -/
theorem group_cipher_wrong_key_rejects (pt key key2 nonce : List Nat)
    (hk : key.length = 32) (hk2 : key2.length = 32) (hne : key ≠ key2)
    (hn : nonce.length = 12) (hpt : ∀ b ∈ pt, b < 256) (hnb : ∀ b ∈ nonce, b < 256) :
    GroupMessageEncryptor.decrypt (GroupMessageEncryptor.encrypt pt key nonce) key2
        = Except.error "Group message decryption failed: InvalidTag"
      ∨ gcmTagBytes key2 nonce (ctrBody key nonce pt)
          = gcmTagBytes key nonce (ctrBody key nonce pt) := by
  by_cases hcond : gcmTagBytes key2 nonce (ctrBody key nonce pt)
      = gcmTagBytes key nonce (ctrBody key nonce pt)
  · exact Or.inr hcond
  · left
    rw [decrypt_encrypt_char pt key key2 nonce hn hpt hnb, if_neg hcond]

/-- Concrete witness for the amended C3. -/
theorem group_cipher_wrong_key_rejects_witness :
    GroupMessageEncryptor.decrypt
        (GroupMessageEncryptor.encrypt [72, 105]
          [0, 1, 2, 3, 4, 5, 6, 7, 8, 9, 10, 11, 12, 13, 14, 15, 16, 17, 18, 19,
            20, 21, 22, 23, 24, 25, 26, 27, 28, 29, 30, 31]
          [0, 0, 0, 0, 0, 0, 0, 0, 0, 0, 0, 0])
        [99, 1, 2, 3, 4, 5, 6, 7, 8, 9, 10, 11, 12, 13, 14, 15, 16, 17, 18, 19,
          20, 21, 22, 23, 24, 25, 26, 27, 28, 29, 30, 31]
        = Except.error "Group message decryption failed: InvalidTag"
      ∨ gcmTagBytes
          [99, 1, 2, 3, 4, 5, 6, 7, 8, 9, 10, 11, 12, 13, 14, 15, 16, 17, 18, 19,
            20, 21, 22, 23, 24, 25, 26, 27, 28, 29, 30, 31]
          [0, 0, 0, 0, 0, 0, 0, 0, 0, 0, 0, 0]
          (ctrBody
            [0, 1, 2, 3, 4, 5, 6, 7, 8, 9, 10, 11, 12, 13, 14, 15, 16, 17, 18, 19,
              20, 21, 22, 23, 24, 25, 26, 27, 28, 29, 30, 31]
            [0, 0, 0, 0, 0, 0, 0, 0, 0, 0, 0, 0] [72, 105])
          = gcmTagBytes
            [0, 1, 2, 3, 4, 5, 6, 7, 8, 9, 10, 11, 12, 13, 14, 15, 16, 17, 18, 19,
              20, 21, 22, 23, 24, 25, 26, 27, 28, 29, 30, 31]
            [0, 0, 0, 0, 0, 0, 0, 0, 0, 0, 0, 0]
            (ctrBody
              [0, 1, 2, 3, 4, 5, 6, 7, 8, 9, 10, 11, 12, 13, 14, 15, 16, 17, 18, 19,
                20, 21, 22, 23, 24, 25, 26, 27, 28, 29, 30, 31]
              [0, 0, 0, 0, 0, 0, 0, 0, 0, 0, 0, 0] [72, 105]) :=
  group_cipher_wrong_key_rejects _ _ _ _ (by decide) (by decide) (by decide)
    (by decide) (by decide) (by decide)

/-- A key family for the pigeonhole argument: 17 free bytes followed by
fifteen zero bytes, giving `256^17` distinct 32-byte keys. -/
def pigeonKey (v : Fin 17 → Fin 256) : List Nat :=
  (List.ofFn fun i => ((v i : Nat))) ++ List.replicate 15 0

/-- The all-zero 12-byte nonce. -/
def nonce0 : List Nat := List.replicate 12 0

/-- Byte `j` of the GCM tag of the empty message under `pigeonKey v`. -/
def pigeonTag (v : Fin 17 → Fin 256) : Fin 16 → Fin 256 :=
  fun j => ⟨gcmTagNat (pigeonKey v) nonce0 [] / 256 ^ (16 - 1 - j.val) % 256,
    Nat.mod_lt _ (by norm_num)⟩

theorem pigeonKey_length (v : Fin 17 → Fin 256) : (pigeonKey v).length = 32 := by
  simp [pigeonKey]

theorem pigeonKey_bytes_lt (v : Fin 17 → Fin 256) : ∀ b ∈ pigeonKey v, b < 256 := by
  intro b hb
  rcases List.mem_append.mp hb with h | h
  · obtain ⟨i, rfl⟩ := Set.mem_range.mp ((List.mem_ofFn _ _).mp h)
    exact (v i).isLt
  · rw [List.eq_of_mem_replicate h]
    norm_num

/-- Counterexample to C3 as frozen: it is not the case that decryption
under every different 32-byte secret fails.  By pigeonhole over the
`256^17` keys of `pigeonKey` and the `256^16` possible tags, two distinct
keys give the empty message the same authentication tag, and decryption
of one key's ciphertext under the other then succeeds. -/
theorem group_cipher_wrong_key_counterexample :
    ¬ (∀ pt key key2 nonce : List Nat,
        key.length = 32 → key2.length = 32 →
        (∀ b ∈ key, b < 256) → (∀ b ∈ key2, b < 256) →
        key ≠ key2 → nonce.length = 12 → (∀ b ∈ nonce, b < 256) →
        (∀ b ∈ pt, b < 256) →
        ∃ e, GroupMessageEncryptor.decrypt
            (GroupMessageEncryptor.encrypt pt key nonce) key2 = Except.error e) := by
  intro hclaim
  have hcard : Fintype.card (Fin 16 → Fin 256) < Fintype.card (Fin 17 → Fin 256) := by
    rw [Fintype.card_fun, Fintype.card_fun, Fintype.card_fin, Fintype.card_fin]
    exact Nat.pow_lt_pow_right (by norm_num) (by norm_num)
  obtain ⟨v, w, hvw, heq⟩ := Fintype.exists_ne_map_eq_of_card_lt pigeonTag hcard
  have hkeys : pigeonKey v ≠ pigeonKey w := by
    intro h
    apply hvw
    have h17 : (List.ofFn fun i => ((v i : Nat))) = List.ofFn fun i => ((w i : Nat)) := by
      have h2 := congrArg (List.take 17) h
      rwa [pigeonKey, pigeonKey, List.take_left' (by simp), List.take_left' (by simp)] at h2
    funext i
    exact Fin.ext (congrFun (List.ofFn_inj.mp h17) i)
  have htagbytes : gcmTagBytes (pigeonKey w) nonce0 [] = gcmTagBytes (pigeonKey v) nonce0 [] := by
    simp only [gcmTagBytes, natToBytes]
    apply List.map_congr_left
    intro i hi
    have hi16 : i < 16 := List.mem_range.mp hi
    have hji := congrFun heq.symm ⟨i, hi16⟩
    have hval := congrArg Fin.val hji
    simpa [pigeonTag] using hval
  obtain ⟨e, he⟩ := hclaim [] (pigeonKey v) (pigeonKey w) nonce0
    (pigeonKey_length v) (pigeonKey_length w)
    (pigeonKey_bytes_lt v) (pigeonKey_bytes_lt w) hkeys
    (by simp [nonce0])
    (fun b hb => by rw [List.eq_of_mem_replicate hb]; norm_num)
    (by simp)
  rw [decrypt_encrypt_char [] (pigeonKey v) (pigeonKey w) nonce0
    (by simp [nonce0]) (by simp)
    (fun b hb => by rw [List.eq_of_mem_replicate hb]; norm_num)] at he
  have hctr : ctrBody (pigeonKey v) nonce0 [] = [] := by simp [ctrBody]
  rw [hctr, if_pos htagbytes] at he
  simp at he

/-! ## Group membership state (`GroupChat` in `src/skchat/group.py`).
Mutating methods are modelled as state transformers; `os.urandom(32)`
draws and `datetime.now` reads are explicit oracle arguments. -/

inductive MemberRole
  | admin
  | member
  | observer
deriving DecidableEq, Repr

inductive ParticipantType
  | human
  | agent
  | service
deriving DecidableEq, Repr

structure GroupMember where
  identity_uri : String
  role : MemberRole
  participant_type : ParticipantType
  display_name : String
  public_key_armor : String
  joined_at : Nat
  tool_scope : List String
deriving DecidableEq, Repr

structure GroupChat where
  id : String
  name : String
  description : String
  members : List GroupMember
  created_by : String
  created_at : Nat
  updated_at : Nat
  message_count : Nat
  group_key : List Nat
  key_version : Nat
  metadata : List (String × String)
deriving DecidableEq, Repr

namespace GroupChat

/-- `GroupChat.get_member`: first member with the given identity URI. -/
def get_member (g : GroupChat) (identity_uri : String) : Option GroupMember :=
  g.members.find? (fun m => m.identity_uri == identity_uri)

/-- `GroupChat.is_admin`. -/
def is_admin (g : GroupChat) (identity_uri : String) : Bool :=
  match g.get_member identity_uri with
  | some m => m.role == MemberRole.admin
  | none => false

/-- `GroupChat.rotate_key`: install the freshly drawn 32-byte secret
(the `os.urandom(32)` draw is the argument) and bump the version. -/
def rotate_key (g : GroupChat) (freshKey : List Nat) : GroupChat :=
  { g with group_key := freshKey, key_version := g.key_version + 1 }

/-- `GroupChat.remove_member`: drop every member with the URI; when
anything was dropped, rotate the key and touch `updated_at`. -/
def remove_member (g : GroupChat) (identity_uri : String)
    (freshKey : List Nat) (now : Nat) : GroupChat × Bool :=
  let members2 := g.members.filter (fun m => m.identity_uri != identity_uri)
  let g1 := { g with members := members2 }
  if members2.length < g.members.length then
    ({ g1.rotate_key freshKey with updated_at := now }, true)
  else (g1, false)

/-- In-place mutation of the member object `get_member` returns: update
the first list entry with the given URI. -/
def updateFirstScope : List GroupMember → String → List String → List GroupMember
  | [], _, _ => []
  | m :: ms, uri, scope =>
      if m.identity_uri == uri then { m with tool_scope := scope } :: ms
      else m :: updateFirstScope ms uri scope

/-- `GroupChat.set_tool_scope`: admin-gated update of a member's tool
scope. -/
def set_tool_scope (g : GroupChat) (identity_uri : String)
    (tool_scope : List String) (by_admin : String) (now : Nat) : GroupChat × Bool :=
  if g.is_admin by_admin then
    match g.get_member identity_uri with
    | none => (g, false)
    | some _ =>
        ({ g with
            members := updateFirstScope g.members identity_uri tool_scope
            updated_at := now }, true)
  else (g, false)

end GroupChat

/-- A concrete two-member group used by witnesses. -/
def groupEx : GroupChat :=
  { id := "g-1", name := "ops", description := "", created_by := "sk:alice",
    created_at := 0, updated_at := 0, message_count := 0,
    group_key := List.replicate 32 0, key_version := 1, metadata := [],
    members :=
      [ { identity_uri := "sk:alice", role := MemberRole.admin,
          participant_type := ParticipantType.human, display_name := "alice",
          public_key_armor := "", joined_at := 0, tool_scope := [] },
        { identity_uri := "sk:bob", role := MemberRole.member,
          participant_type := ParticipantType.agent, display_name := "bob",
          public_key_armor := "", joined_at := 0, tool_scope := [] } ] }

/-- C1.
A successful `remove_member` unconditionally rotates: the key version
rises by exactly one and the group key becomes the freshly drawn secret,
hence differs from the prior key (the `os.urandom(32)` draw differing
from the old key is the freshness hypothesis).  No caller-controlled
input can suppress the rotation: the hypotheses are only that the
removal succeeded and that the draw is fresh. -/
theorem remove_member_rotates (g : GroupChat) (uri : String)
    (freshKey : List Nat) (now : Nat)
    (hfresh : freshKey ≠ g.group_key)
    (hrem : (g.remove_member uri freshKey now).2 = true) :
    (g.remove_member uri freshKey now).1.key_version = g.key_version + 1
      ∧ (g.remove_member uri freshKey now).1.group_key = freshKey
      ∧ (g.remove_member uri freshKey now).1.group_key ≠ g.group_key := by
  by_cases hc : (g.members.filter fun m => m.identity_uri != uri).length < g.members.length
  · simp [GroupChat.remove_member, GroupChat.rotate_key, hc, hfresh]
  · simp [GroupChat.remove_member, hc] at hrem

/-- Concrete witness for C1: removing `sk:bob` from `groupEx`. -/
theorem remove_member_rotates_witness :
    (groupEx.remove_member "sk:bob" (List.replicate 32 7) 99).1.key_version
        = groupEx.key_version + 1
      ∧ (groupEx.remove_member "sk:bob" (List.replicate 32 7) 99).1.group_key
        = List.replicate 32 7
      ∧ (groupEx.remove_member "sk:bob" (List.replicate 32 7) 99).1.group_key
        ≠ groupEx.group_key :=
  remove_member_rotates groupEx "sk:bob" (List.replicate 32 7) 99
    (by decide) (by decide)

/-- C9.
Removing an identity that is not a member returns `false` and leaves the
whole group state — members, key, version, `updated_at`, everything —
exactly as it was: no rotation on failed removal. -/
theorem remove_member_absent_noop (g : GroupChat) (uri : String)
    (freshKey : List Nat) (now : Nat)
    (habs : ∀ m ∈ g.members, m.identity_uri ≠ uri) :
    g.remove_member uri freshKey now = (g, false) := by
  have hfilter : g.members.filter (fun m => m.identity_uri != uri) = g.members :=
    List.filter_eq_self.mpr (fun m hm => by simpa using habs m hm)
  simp only [GroupChat.remove_member, hfilter]
  rw [if_neg (lt_irrefl _)]

/-- Concrete witness for C9: removing an unknown URI from `groupEx`. -/
theorem remove_member_absent_noop_witness :
    groupEx.remove_member "sk:mallory" (List.replicate 32 7) 99 = (groupEx, false) :=
  remove_member_absent_noop groupEx "sk:mallory" (List.replicate 32 7) 99 (by decide)

/-- Updating the first matching member is what `get_member` then sees. -/
theorem find_updateFirstScope :
    ∀ (ms : List GroupMember) (uri : String) (scope : List String) (m : GroupMember),
      ms.find? (fun x => x.identity_uri == uri) = some m →
      (GroupChat.updateFirstScope ms uri scope).find? (fun x => x.identity_uri == uri)
        = some { m with tool_scope := scope }
  | [], _, _, _, h => by simp at h
  | x :: ms, uri, scope, m, h => by
      by_cases hx : (x.identity_uri == uri) = true
      · simp only [List.find?, hx] at h
        injection h with h
        subst h
        simp [GroupChat.updateFirstScope, hx, List.find?]
      · have hxf : (x.identity_uri == uri) = false := by
          revert hx
          cases x.identity_uri == uri <;> simp
        simp only [List.find?, hxf] at h
        simp only [GroupChat.updateFirstScope, hxf, Bool.false_eq_true, if_false]
        simp only [List.find?, hxf]
        exact find_updateFirstScope ms uri scope m h

/-- C7.
`set_tool_scope(u, L, a)` succeeds exactly when `a` is an admin member
and `u` is an existing member; on failure it returns `false` with the
group (every member's scope included) exactly unchanged; on success it
returns `true` and `u`'s stored `tool_scope` becomes `L`. -/
theorem set_tool_scope_gate (g : GroupChat) (uri : String) (scope : List String)
    (adm : String) (now : Nat) :
    ((g.set_tool_scope uri scope adm now).2
        = (g.is_admin adm && (g.get_member uri).isSome))
      ∧ ((g.set_tool_scope uri scope adm now).2 = false →
          g.set_tool_scope uri scope adm now = (g, false))
      ∧ (∀ m, g.is_admin adm = true → g.get_member uri = some m →
          (g.set_tool_scope uri scope adm now).1.get_member uri
            = some { m with tool_scope := scope }) := by
  by_cases ha : g.is_admin adm = true
  · rcases hm : g.get_member uri with _ | m0
    · refine ⟨by simp [GroupChat.set_tool_scope, ha, hm], ?_, ?_⟩
      · intro _
        simp [GroupChat.set_tool_scope, ha, hm]
      · intro m _ hmem
        simp [hm] at hmem
    · refine ⟨by simp [GroupChat.set_tool_scope, ha, hm], ?_, ?_⟩
      · intro hfalse
        rw [show (g.set_tool_scope uri scope adm now).2 = true by
          simp [GroupChat.set_tool_scope, ha, hm]] at hfalse
        cases hfalse
      · intro m _ hmem
        have hmm : m0 = m := by simp [hm] at hmem; exact hmem
        subst hmm
        simp only [GroupChat.set_tool_scope, ha, if_true, hm]
        exact find_updateFirstScope g.members uri scope m0 hm
  · have ha2 : g.is_admin adm = false := by
      cases hb : g.is_admin adm
      · rfl
      · exact absurd hb ha
    refine ⟨by simp [GroupChat.set_tool_scope, ha2], ?_, ?_⟩
    · intro _
      simp [GroupChat.set_tool_scope, ha2]
    · intro m hadm _
      exact absurd hadm ha

/-- Concrete witness for C7: an admin scoping a member in `groupEx`. -/
theorem set_tool_scope_gate_witness :
    ((groupEx.set_tool_scope "sk:bob" ["skseal.sign"] "sk:alice" 42).2
        = (groupEx.is_admin "sk:alice" && (groupEx.get_member "sk:bob").isSome))
      ∧ ((groupEx.set_tool_scope "sk:bob" ["skseal.sign"] "sk:alice" 42).2 = false →
          groupEx.set_tool_scope "sk:bob" ["skseal.sign"] "sk:alice" 42 = (groupEx, false))
      ∧ (∀ m, groupEx.is_admin "sk:alice" = true →
          groupEx.get_member "sk:bob" = some m →
          (groupEx.set_tool_scope "sk:bob" ["skseal.sign"] "sk:alice" 42).1.get_member "sk:bob"
            = some { m with tool_scope := ["skseal.sign"] }) :=
  set_tool_scope_gate groupEx "sk:bob" ["skseal.sign"] "sk:alice" 42

/-! ## Chunked file transfer, receive side (`src/skchat/files.py`).
Python dicts are insertion-ordered association lists; SHA-256 hashing and
PGP key unwrapping are external and passed as function arguments. -/

inductive TransferStatus
  | preparing
  | sending
  | receiving
  | complete
  | failed
deriving DecidableEq, Repr

structure FileTransfer where
  transfer_id : String
  filename : String
  file_size : Nat
  chunk_size : Nat
  total_chunks : Nat
  sha256 : String
  sender : String
  recipient : String
  transfer_key : List Nat
  encrypted_key : String
  status : TransferStatus
deriving DecidableEq, Repr

structure FileChunk where
  transfer_id : String
  sequence : Nat
  total_chunks : Nat
  data : List Char
  chunk_hash : String
deriving DecidableEq, Repr

structure FileReceiver where
  private_key_armor : String
  passphrase : String
  transfers : List (String × FileTransfer)
  chunks : List (String × List (Nat × FileChunk))
deriving DecidableEq, Repr

/-- `d[k] = f(d[k])` on an insertion-ordered dict: rewrite the first
entry with this key in place. -/
def updChunks : List (String × List (Nat × FileChunk)) → String
    → (List (Nat × FileChunk) → List (Nat × FileChunk))
    → List (String × List (Nat × FileChunk))
  | [], _, _ => []
  | (k, v) :: rest, tid, f =>
      if k == tid then (k, f v) :: rest else (k, v) :: updChunks rest tid f

namespace FileReceiver

/-- `FileReceiver.register_transfer`. -/
def register_transfer (st : FileReceiver) (tr : FileTransfer) : FileReceiver :=
  { st with
      transfers :=
        if (st.transfers.lookup tr.transfer_id).isSome then
          st.transfers.map (fun p => if p.1 == tr.transfer_id then (p.1, tr) else p)
        else st.transfers ++ [(tr.transfer_id, tr)]
      chunks :=
        if (st.chunks.lookup tr.transfer_id).isSome then st.chunks
        else st.chunks ++ [(tr.transfer_id, [])] }

/-- `FileReceiver.receive_chunk`: reject duplicates by sequence number,
store new chunks. -/
def receive_chunk (st : FileReceiver) (c : FileChunk) : FileReceiver × Bool :=
  let st1 : FileReceiver :=
    { st with
        chunks :=
          if (st.chunks.lookup c.transfer_id).isSome then st.chunks
          else st.chunks ++ [(c.transfer_id, [])] }
  if (((st1.chunks.lookup c.transfer_id).getD []).lookup c.sequence).isSome then
    (st1, false)
  else
    ({ st1 with chunks := updChunks st1.chunks c.transfer_id (fun v => v ++ [(c.sequence, c)]) },
      true)

/-- `FileReceiver.is_complete`: against the registered transfer's
`total_chunks` when registered, else against the first stored chunk's. -/
def is_complete (st : FileReceiver) (transfer_id : String) : Bool :=
  let cs := (st.chunks.lookup transfer_id).getD []
  match st.transfers.lookup transfer_id with
  | none =>
      match cs with
      | [] => false
      | (_, first) :: rest => rest.length + 1 == first.total_chunks
  | some tr => cs.length == tr.total_chunks

end FileReceiver

/-- Truthiness of the optional hex key (`None` and `""` are falsy). -/
def keyFalsy : Option (List Nat) → Bool
  | none => true
  | some [] => true
  | some (_ :: _) => false

/-- The two key-resolution fallbacks at the top of `assemble`. -/
def resolveKey (key0 : Option (List Nat)) (transfer : Option FileTransfer)
    (pgpDec : String → Option (List Nat)) : Option (List Nat) :=
  let k1 :=
    if keyFalsy key0 then
      match transfer with
      | some tr => if tr.encrypted_key ≠ "" then pgpDec tr.encrypted_key else key0
      | none => key0
    else key0
  if keyFalsy k1 then
    match transfer with
    | some tr => some tr.transfer_key
    | none => k1
  else k1

/-- `FileReceiver._decrypt_chunk`: base64-decode; with an empty key the
raw bytes pass through, otherwise AES-GCM-decrypt (an `InvalidTag`
propagates out of `assemble`). -/
def decrypt_chunk (data : List Char) (key : List Nat) : Except String (List Nat) :=
  let raw := b64decode data
  if key = [] then Except.ok raw
  else aesgcmDecrypt key (raw.take 12) (raw.drop 12)

/-- The chunk-decryption loop of `assemble`, in ascending sequence
order. -/
def assembleData (chunks : List (Nat × FileChunk)) (key : List Nat) :
    Except String (List Nat) :=
  ((chunks.map Prod.fst).mergeSort (fun a b => a ≤ b)).foldlM
    (fun acc seq =>
      match chunks.lookup seq with
      | some c => (decrypt_chunk c.data key).map (fun d => acc ++ d)
      | none => Except.ok acc)
    []

/-- What `assemble` returns (the dict written back to the caller; `data`
stands for the bytes written to `output_path`). -/
structure AssembleResult where
  data : List Nat
  size : Nat
  sha256 : String
  verified : Bool
  transfer_id : String
deriving DecidableEq, Repr

/-- The tail of `assemble` after the completeness guard. -/
def finishAssemble (chunks : List (Nat × FileChunk)) (transfer : Option FileTransfer)
    (key0 : Option (List Nat)) (hashFn : List Nat → String)
    (pgpDec : String → Option (List Nat)) (tid : String) : Except String AssembleResult :=
  let key := resolveKey key0 transfer pgpDec
  let keyBytes := match key with | some l => l | none => []
  match assembleData chunks keyBytes with
  | Except.error e => Except.error e
  | Except.ok data =>
      let h := hashFn data
      Except.ok
        { data := data, size := data.length, sha256 := h,
          verified := match transfer with | some tr => tr.sha256 == h | none => true,
          transfer_id := tid }

/-- `FileReceiver.assemble`: completeness is checked only against a
registered transfer, then chunks are decrypted in sequence order and
concatenated; `hashFn` models `hashlib.sha256(..).hexdigest()` and
`pgpDec` models `_decrypt_transfer_key`. -/
def FileReceiver.assemble (st : FileReceiver) (transfer_id : String)
    (transfer_key : Option (List Nat)) (hashFn : List Nat → String)
    (pgpDec : String → Option (List Nat)) : Except String AssembleResult :=
  let chunks := (st.chunks.lookup transfer_id).getD []
  match st.transfers.lookup transfer_id with
  | some tr =>
      if chunks.length < tr.total_chunks then
        Except.error ("Missing chunks: have " ++ toString chunks.length ++ "/"
          ++ toString tr.total_chunks)
      else finishAssemble chunks (some tr) transfer_key hashFn pgpDec transfer_id
  | none => finishAssemble chunks none transfer_key hashFn pgpDec transfer_id

/-- Lookup skips over a prefix in which the key does not occur. -/
theorem lookup_append {α β : Type} [BEq α] :
    ∀ (l1 l2 : List (α × β)) (k : α), l1.lookup k = none →
      (l1 ++ l2).lookup k = l2.lookup k
  | [], _, _, _ => by simp
  | (a, b) :: l1, l2, k, h => by
      simp only [List.lookup, List.cons_append] at h ⊢
      cases hab : k == a
      · rw [hab] at h
        simp only at h ⊢
        exact lookup_append l1 l2 k h
      · rw [hab] at h
        simp at h

/-- Updating a key's value in place is seen by `lookup`. -/
theorem lookup_updChunks :
    ∀ (l : List (String × List (Nat × FileChunk))) (tid : String)
      (f : List (Nat × FileChunk) → List (Nat × FileChunk)),
      (updChunks l tid f).lookup tid = (l.lookup tid).map f
  | [], _, _ => rfl
  | (k, v) :: rest, tid, f => by
      by_cases hk : k = tid
      · subst hk
        simp [updChunks, List.lookup]
      · have h1 : (k == tid) = false := beq_eq_false_iff_ne.mpr hk
        have h2 : (tid == k) = false := beq_eq_false_iff_ne.mpr (Ne.symm hk)
        simp only [updChunks, h1, Bool.false_eq_true, if_false, List.lookup, h2]
        exact lookup_updChunks rest tid f

/-- A duplicate sequence number is rejected with the receiver state
exactly unchanged. -/
theorem receive_chunk_dup (st : FileReceiver) (c : FileChunk)
    (hdup : (((st.chunks.lookup c.transfer_id).getD []).lookup c.sequence).isSome = true) :
    st.receive_chunk c = (st, false) := by
  have htid : (st.chunks.lookup c.transfer_id).isSome = true := by
    cases h : st.chunks.lookup c.transfer_id
    · rw [h] at hdup
      simp at hdup
    · rfl
  simp only [FileReceiver.receive_chunk, htid, if_true, hdup]

/-- A fresh sequence number is accepted and stored. -/
theorem receive_chunk_new (st : FileReceiver) (c : FileChunk)
    (hnew : ((st.chunks.lookup c.transfer_id).getD []).lookup c.sequence = none) :
    (st.receive_chunk c).2 = true
      ∧ (((st.receive_chunk c).1.chunks.lookup c.transfer_id).getD []).lookup c.sequence
        = some c := by
  cases htid : st.chunks.lookup c.transfer_id with
  | none =>
      have hl : (st.chunks ++ [(c.transfer_id, [])]).lookup c.transfer_id = some [] := by
        rw [lookup_append _ _ _ htid]
        simp [List.lookup]
      simp only [FileReceiver.receive_chunk, htid, Option.isSome_none, Bool.false_eq_true,
        if_false, hl, Option.getD_some, List.lookup, Option.isSome_none]
      constructor
      · trivial
      · rw [lookup_updChunks, hl]
        simp [List.lookup]
  | some entry =>
      rw [htid] at hnew
      simp only [Option.getD_some] at hnew
      have hiss : (st.chunks.lookup c.transfer_id).isSome = true := by rw [htid]; rfl
      have hupd : (updChunks st.chunks c.transfer_id
          (fun v => v ++ [(c.sequence, c)])).lookup c.transfer_id
          = some (entry ++ [(c.sequence, c)]) := by
        rw [lookup_updChunks, htid]
        rfl
      simp only [FileReceiver.receive_chunk, htid, Option.isSome_some, if_true,
        Option.getD_some, hnew, Option.isSome_none, Bool.false_eq_true, if_false, hupd]
      constructor
      · trivial
      · rw [lookup_append _ _ _ hnew]
        simp [List.lookup]

/-- C5.
`receive_chunk` is idempotent under retransmission: a chunk whose
sequence number is already stored for its transfer is rejected
(`false`) with the whole receiver state — in particular the previously
stored chunk — unchanged; a chunk with a fresh sequence number is
accepted (`true`) and stored. -/
theorem receive_chunk_idempotent (st : FileReceiver) (c : FileChunk) :
    ((((st.chunks.lookup c.transfer_id).getD []).lookup c.sequence).isSome = true →
        st.receive_chunk c = (st, false))
      ∧ (((st.chunks.lookup c.transfer_id).getD []).lookup c.sequence = none →
        (st.receive_chunk c).2 = true
          ∧ (((st.receive_chunk c).1.chunks.lookup c.transfer_id).getD []).lookup c.sequence
            = some c) :=
  ⟨receive_chunk_dup st c, receive_chunk_new st c⟩

/-- A two-chunk transfer with one chunk received, used by witnesses. -/
def chunkEx0 : FileChunk :=
  { transfer_id := "t-1", sequence := 0, total_chunks := 2, data := [], chunk_hash := "" }

def chunkEx1 : FileChunk :=
  { transfer_id := "t-1", sequence := 1, total_chunks := 2, data := [], chunk_hash := "" }

def transferEx : FileTransfer :=
  { transfer_id := "t-1", filename := "f.bin", file_size := 300, chunk_size := 256,
    total_chunks := 2, sha256 := "", sender := "sk:alice", recipient := "sk:bob",
    transfer_key := [], encrypted_key := "", status := TransferStatus.sending }

def receiverEx : FileReceiver :=
  { private_key_armor := "", passphrase := "",
    transfers := [("t-1", transferEx)], chunks := [("t-1", [(0, chunkEx0)])] }

/-- Concrete witness for C5 on `receiverEx`. -/
theorem receive_chunk_idempotent_witness :
    ((((receiverEx.chunks.lookup chunkEx0.transfer_id).getD []).lookup
          chunkEx0.sequence).isSome = true →
        receiverEx.receive_chunk chunkEx0 = (receiverEx, false))
      ∧ (((receiverEx.chunks.lookup chunkEx0.transfer_id).getD []).lookup
            chunkEx0.sequence = none →
        (receiverEx.receive_chunk chunkEx0).2 = true
          ∧ (((receiverEx.receive_chunk chunkEx0).1.chunks.lookup
                chunkEx0.transfer_id).getD []).lookup chunkEx0.sequence
            = some chunkEx0) :=
  receive_chunk_idempotent receiverEx chunkEx0

/-- C4.
With the transfer registered and strictly fewer distinct sequence
numbers stored than its `total_chunks`, `assemble` fails with the
missing-chunks error (Python raises `ValueError`) and yields no
assembled output. -/
theorem assemble_incomplete_fails (st : FileReceiver) (tid : String)
    (key0 : Option (List Nat)) (hashFn : List Nat → String)
    (pgpDec : String → Option (List Nat)) (tr : FileTransfer)
    (hreg : st.transfers.lookup tid = some tr)
    (hnd : (((st.chunks.lookup tid).getD []).map Prod.fst).Nodup)
    (hlt : ((st.chunks.lookup tid).getD []).length < tr.total_chunks) :
    st.assemble tid key0 hashFn pgpDec
      = Except.error ("Missing chunks: have "
          ++ toString ((st.chunks.lookup tid).getD []).length ++ "/"
          ++ toString tr.total_chunks) := by
  simp only [FileReceiver.assemble, hreg]
  rw [if_pos hlt]

/-- Concrete witness for C4: assembling `receiverEx`'s transfer with one
of two chunks present. -/
theorem assemble_incomplete_fails_witness :
    receiverEx.assemble "t-1" none (fun _ => "") (fun _ => none)
      = Except.error ("Missing chunks: have "
          ++ toString ((receiverEx.chunks.lookup "t-1").getD []).length ++ "/"
          ++ toString transferEx.total_chunks) :=
  assemble_incomplete_fails receiverEx "t-1" none (fun _ => "") (fun _ => none)
    transferEx (by decide) (by decide) (by decide)

/-- A receiver holding two chunks that disagree about `total_chunks`:
the stored count (2) matches the second chunk's value but not the
first's. -/
def chunkHet0 : FileChunk :=
  { transfer_id := "t-h", sequence := 0, total_chunks := 5, data := [], chunk_hash := "" }

def chunkHet1 : FileChunk :=
  { transfer_id := "t-h", sequence := 1, total_chunks := 2, data := [], chunk_hash := "" }

def receiverHet : FileReceiver :=
  { private_key_armor := "", passphrase := "",
    transfers := [], chunks := [("t-h", [(0, chunkHet0), (1, chunkHet1)])] }

/-- Counterexample to C10 as frozen: for the unregistered transfer
`t-h`, the stored count (2) equals the `total_chunks` carried inside one
of the stored chunks, yet `is_complete` is `false` — the code compares
against the first-received chunk's value, not against any stored
chunk's. -/
theorem is_complete_first_chunk_counterexample :
    receiverHet.transfers.lookup "t-h" = none
      ∧ ((receiverHet.chunks.lookup "t-h").getD []).length = 2
      ∧ (((receiverHet.chunks.lookup "t-h").getD []).map
          (fun p => p.2.total_chunks)).contains 2 = true
      ∧ receiverHet.is_complete "t-h" = false := by decide

/-- C10 (amended).
Registration is not a precondition of `receive_chunk`: a chunk of a
never-registered transfer with a fresh sequence number is accepted and
stored; and for a never-registered transfer, `is_complete` is `false`
with no chunks stored and otherwise compares the stored count against
the `total_chunks` carried in the **first-received** stored chunk. -/
theorem receive_unregistered_is_complete (st : FileReceiver) (c : FileChunk)
    (hunreg : st.transfers.lookup c.transfer_id = none) :
    (((st.chunks.lookup c.transfer_id).getD []).lookup c.sequence = none →
        (st.receive_chunk c).2 = true
          ∧ (((st.receive_chunk c).1.chunks.lookup c.transfer_id).getD []).lookup c.sequence
            = some c)
      ∧ ((st.chunks.lookup c.transfer_id).getD [] = [] →
          st.is_complete c.transfer_id = false)
      ∧ (∀ s fc rest, (st.chunks.lookup c.transfer_id).getD [] = (s, fc) :: rest →
          st.is_complete c.transfer_id = (rest.length + 1 == fc.total_chunks)) := by
  refine ⟨receive_chunk_new st c, ?_, ?_⟩
  · intro hempty
    simp [FileReceiver.is_complete, hunreg, hempty]
  · intro s fc rest hentry
    simp [FileReceiver.is_complete, hunreg, hentry]

/-- Concrete witness for the amended C10: an empty, unregistered
receiver accepts `chunkHet0`. -/
theorem receive_unregistered_is_complete_witness :
    ((((FileReceiver.mk "" "" [] []).chunks.lookup chunkHet0.transfer_id).getD
          []).lookup chunkHet0.sequence = none →
        ((FileReceiver.mk "" "" [] []).receive_chunk chunkHet0).2 = true
          ∧ ((((FileReceiver.mk "" "" [] []).receive_chunk chunkHet0).1.chunks.lookup
                chunkHet0.transfer_id).getD []).lookup chunkHet0.sequence
            = some chunkHet0)
      ∧ (((FileReceiver.mk "" "" [] []).chunks.lookup chunkHet0.transfer_id).getD [] = [] →
          (FileReceiver.mk "" "" [] []).is_complete chunkHet0.transfer_id = false)
      ∧ (∀ s fc rest,
          ((FileReceiver.mk "" "" [] []).chunks.lookup chunkHet0.transfer_id).getD []
              = (s, fc) :: rest →
          (FileReceiver.mk "" "" [] []).is_complete chunkHet0.transfer_id
            = (rest.length + 1 == fc.total_chunks)) :=
  receive_unregistered_is_complete (FileReceiver.mk "" "" [] []) chunkHet0 (by decide)

/-! ## Ephemeral message reaper (`MessageReaper.sweep` in
`src/skchat/ephemeral.py`).  A stored record's `metadata["ttl"]` is
`none` when absent and `some none` when not parseable as an integer;
`created_at` is `none` when the timestamp does not parse.  The storage
backend is modelled as reliable (`forget`/`snapshot` never throw), so
the `errors` counter stays zero.  `deleted` collects the ids passed to
`store.forget`, `tombstones` the records passed to `store.snapshot`. -/

structure Memory where
  id : String
  created_at : Option Int
  ttl : Option (Option Int)
  sender : String
  recipient : String
  thread_id : Option String
deriving DecidableEq, Repr

structure Tombstone where
  original_id : String
  sender : String
  recipient : String
  thread_id : Option String
  expired_at : Int
  original_ttl : Option (Option Int)
deriving DecidableEq, Repr

structure ExpiryResult where
  scanned : Nat
  expired : Nat
  tombstoned : Nat
  errors : Nat
  active_ephemeral : Nat
deriving DecidableEq, Repr

structure SweepOutcome where
  result : ExpiryResult
  deleted : List String
  tombstones : List Tombstone
deriving DecidableEq, Repr

/-- `MessageReaper._create_tombstone`. -/
def mkTombstone (now : Int) (m : Memory) : Tombstone :=
  { original_id := m.id, sender := m.sender, recipient := m.recipient,
    thread_id := m.thread_id, expired_at := now, original_ttl := m.ttl }

/-- The record is scanned with an integer TTL, a parseable `created_at`,
and `now ≥ createdAt + ttl`. -/
def expiredP (now : Int) (m : Memory) : Bool :=
  match m.ttl, m.created_at with
  | some (some t), some ca => decide (ca + t ≤ now)
  | _, _ => false

/-- The record has an integer TTL, a parseable `created_at`, and is
still within its TTL window. -/
def activeP (now : Int) (m : Memory) : Bool :=
  match m.ttl, m.created_at with
  | some (some t), some ca => decide (now < ca + t)
  | _, _ => false

namespace MessageReaper

/-- `MessageReaper.sweep` over the scanned records (the store's
`list_memories` result), processed in list order. -/
def sweep (now : Int) (create_tombstones : Bool) : List Memory → SweepOutcome
  | [] =>
      { result := { scanned := 0, expired := 0, tombstoned := 0, errors := 0,
                    active_ephemeral := 0 },
        deleted := [], tombstones := [] }
  | m :: rest =>
      let r := sweep now create_tombstones rest
      match m.ttl, m.created_at with
      | some (some t), some ca =>
          if ca + t ≤ now then
            { result :=
                { scanned := r.result.scanned + 1, expired := r.result.expired + 1,
                  tombstoned := r.result.tombstoned
                    + (if create_tombstones then 1 else 0),
                  errors := r.result.errors,
                  active_ephemeral := r.result.active_ephemeral },
              deleted := m.id :: r.deleted,
              tombstones :=
                (if create_tombstones then [mkTombstone now m] else []) ++ r.tombstones }
          else
            { r with
                result :=
                  { r.result with
                      scanned := r.result.scanned + 1
                      active_ephemeral := r.result.active_ephemeral + 1 } }
      | _, _ =>
          { r with result := { r.result with scanned := r.result.scanned + 1 } }

end MessageReaper

/-- Closed form of the whole sweep. -/
theorem sweep_eq (now : Int) (ct : Bool) :
    ∀ msgs : List Memory,
      MessageReaper.sweep now ct msgs =
        { result :=
            { scanned := msgs.length,
              expired := (msgs.filter (expiredP now)).length,
              tombstoned := if ct then (msgs.filter (expiredP now)).length else 0,
              errors := 0,
              active_ephemeral := (msgs.filter (activeP now)).length },
          deleted := (msgs.filter (expiredP now)).map (fun m => m.id),
          tombstones :=
            if ct then (msgs.filter (expiredP now)).map (mkTombstone now) else [] }
  | [] => by simp [MessageReaper.sweep]
  | m :: rest => by
      rw [MessageReaper.sweep, sweep_eq now ct rest]
      rcases httl : m.ttl with _ | ottl
      · simp [List.filter, expiredP, activeP, httl]
      · rcases hot : ottl with _ | t
        · subst hot
          simp [List.filter, expiredP, activeP, httl]
        · subst hot
          rcases hca : m.created_at with _ | ca
          · simp [List.filter, expiredP, activeP, httl, hca]
          · by_cases hexp : ca + t ≤ now
            · have he : expiredP now m = true := by simp [expiredP, httl, hca, hexp]
              have ha : activeP now m = false := by simp [activeP, httl, hca]; omega
              simp only [if_pos hexp, List.filter, he, ha]
              cases ct <;> simp
            · have he : expiredP now m = false := by simp [expiredP, httl, hca]; omega
              have ha : activeP now m = true := by simp [activeP, httl, hca]; omega
              simp only [if_neg hexp, List.filter, he, ha]
              simp

/-- No tombstone among those generated from `l` references `idv` when no
record of `l` has that id. -/
theorem tomb_no_ref (now : Int) (idv : String) (l : List Memory)
    (hid : idv ∉ l.map (fun x => x.id)) :
    ((l.filter (expiredP now)).map (mkTombstone now)).filter
        (fun tb => tb.original_id == idv) = [] := by
  rw [List.filter_eq_nil_iff]
  intro tb htb
  obtain ⟨m', hm', rfl⟩ := List.mem_map.mp htb
  have hm'l : m' ∈ l := (List.mem_filter.mp hm').1
  simp only [mkTombstone, beq_iff_eq]
  intro hbeq
  exact hid (hbeq ▸ List.mem_map.mpr ⟨m', hm'l, rfl⟩)

/-- The tombstones referencing a scanned record's id: exactly the one
tombstone of that record when it expired, none otherwise. -/
theorem tomb_filter_id (now : Int) (m : Memory) :
    ∀ l : List Memory, (l.map (fun x => x.id)).Nodup → m ∈ l →
      ((l.filter (expiredP now)).map (mkTombstone now)).filter
          (fun tb => tb.original_id == m.id)
        = if expiredP now m = true then [mkTombstone now m] else []
  | [], _, hm => absurd hm (List.not_mem_nil m)
  | x :: l, hnd, hm => by
      have hnd' : (x.id :: l.map (fun y => y.id)).Nodup := by
        rw [List.map_cons] at hnd
        exact hnd
      have hnd2 : (l.map (fun y => y.id)).Nodup := hnd'.of_cons
      have hxnotin : x.id ∉ l.map (fun y => y.id) := (List.nodup_cons.mp hnd').1
      rcases List.mem_cons.mp hm with rfl | hm'
      · cases hex : expiredP now m
        · rw [List.filter_cons_of_neg (by simp [hex])]
          rw [tomb_no_ref now m.id l hxnotin]
          simp
        · rw [List.filter_cons_of_pos (by simp [hex])]
          rw [List.map_cons, List.filter_cons_of_pos (by simp [mkTombstone])]
          rw [tomb_no_ref now m.id l hxnotin]
          simp
      · have hne : x.id ≠ m.id := fun hcontra =>
          hxnotin (hcontra ▸ List.mem_map.mpr ⟨m, hm', rfl⟩)
        cases hex : expiredP now x
        · rw [List.filter_cons_of_neg (by simp [hex])]
          exact tomb_filter_id now m l hnd2 hm'
        · rw [List.filter_cons_of_pos (by simp [hex])]
          rw [List.map_cons, List.filter_cons_of_neg (by simp [mkTombstone, hne])]
          exact tomb_filter_id now m l hnd2 hm'

/-- A record that did not expire is never among the deleted ids. -/
theorem not_deleted_of_not_expired (now : Int) (m : Memory) (l : List Memory)
    (hnd : (l.map (fun x => x.id)).Nodup) (hm : m ∈ l)
    (hexp : expiredP now m = false) :
    m.id ∉ (l.filter (expiredP now)).map (fun x => x.id) := by
  intro hmem
  obtain ⟨m', hm', hid⟩ := List.mem_map.mp hmem
  obtain ⟨hm'l, hm'exp⟩ := List.mem_filter.mp hm'
  have : m' = m := List.inj_on_of_nodup_map hnd hm'l hm hid
  rw [this] at hm'exp
  rw [hm'exp] at hexp
  cases hexp

/-- C6.
For a scanned record with an integer TTL and parseable `createdAt`
(`expiry = createdAt + ttl`): while `now < expiry` the sweep neither
deletes nor tombstones it and counts it among `activeRemaining`
(`active_ephemeral`); once `now ≥ expiry` the sweep deletes it, counts
it among `expired`, and — when tombstones are enabled — emits exactly
one tombstone referencing its original id.  A record without a TTL is
never deleted or tombstoned. -/
theorem sweep_ttl_expiry (msgs : List Memory) (now : Int) (ct : Bool) (m : Memory)
    (hm : m ∈ msgs) (hnd : (msgs.map (fun x => x.id)).Nodup) :
    (∀ t ca, m.ttl = some (some t) → m.created_at = some ca →
      ((now < ca + t →
          m.id ∉ (MessageReaper.sweep now ct msgs).deleted
            ∧ ((MessageReaper.sweep now ct msgs).tombstones.filter
                (fun tb => tb.original_id == m.id)) = []
            ∧ (MessageReaper.sweep now ct msgs).result.active_ephemeral
              = (msgs.filter (activeP now)).length
            ∧ activeP now m = true)
        ∧ (ca + t ≤ now →
            m.id ∈ (MessageReaper.sweep now ct msgs).deleted
              ∧ (MessageReaper.sweep now ct msgs).result.expired
                = (msgs.filter (expiredP now)).length
              ∧ expiredP now m = true
              ∧ (ct = true →
                  ((MessageReaper.sweep now ct msgs).tombstones.filter
                      (fun tb => tb.original_id == m.id)) = [mkTombstone now m]))))
      ∧ (m.ttl = none →
          m.id ∉ (MessageReaper.sweep now ct msgs).deleted
            ∧ ((MessageReaper.sweep now ct msgs).tombstones.filter
                (fun tb => tb.original_id == m.id)) = []) := by
  rw [sweep_eq now ct msgs]
  refine ⟨?_, ?_⟩
  · intro t ca httl hca
    constructor
    · intro hlt
      have hact : activeP now m = true := by
        simp only [activeP, httl, hca]
        simpa using hlt
      have hexp : expiredP now m = false := by
        simp only [expiredP, httl, hca]
        simpa using hlt
      refine ⟨?_, ?_, rfl, hact⟩
      · exact not_deleted_of_not_expired now m msgs hnd hm hexp
      · cases ct
        · simp
        · simp only [if_true]
          rw [tomb_filter_id now m msgs hnd hm, hexp]
          simp
    · intro hge
      have hexp : expiredP now m = true := by
        simp only [expiredP, httl, hca]
        simpa using hge
      refine ⟨?_, rfl, hexp, ?_⟩
      · exact List.mem_map.mpr ⟨m, List.mem_filter.mpr ⟨hm, hexp⟩, rfl⟩
      · intro hct
        subst hct
        simp only [if_true]
        rw [tomb_filter_id now m msgs hnd hm, hexp]
        simp
  · intro httl
    have hexp : expiredP now m = false := by simp [expiredP, httl]
    refine ⟨?_, ?_⟩
    · exact not_deleted_of_not_expired now m msgs hnd hm hexp
    · cases ct
      · simp
      · simp only [if_true]
        rw [tomb_filter_id now m msgs hnd hm, hexp]
        simp

/-- Records used by the C6 witness: one expired ephemeral record and one
permanent record. -/
def memEx1 : Memory :=
  { id := "m-1", created_at := some 0, ttl := some (some 10),
    sender := "sk:alice", recipient := "sk:bob", thread_id := none }

def memEx2 : Memory :=
  { id := "m-2", created_at := some 0, ttl := none,
    sender := "sk:bob", recipient := "sk:alice", thread_id := none }

/-- Concrete witness for C6: sweeping at `now = 11` a record created at
`0` with `ttl = 10`, alongside a TTL-free record. -/
theorem sweep_ttl_expiry_witness :
    (∀ t ca, memEx1.ttl = some (some t) → memEx1.created_at = some ca →
      ((11 < ca + t →
          memEx1.id ∉ (MessageReaper.sweep 11 true [memEx1, memEx2]).deleted
            ∧ ((MessageReaper.sweep 11 true [memEx1, memEx2]).tombstones.filter
                (fun tb => tb.original_id == memEx1.id)) = []
            ∧ (MessageReaper.sweep 11 true [memEx1, memEx2]).result.active_ephemeral
              = ([memEx1, memEx2].filter (activeP 11)).length
            ∧ activeP 11 memEx1 = true)
        ∧ (ca + t ≤ 11 →
            memEx1.id ∈ (MessageReaper.sweep 11 true [memEx1, memEx2]).deleted
              ∧ (MessageReaper.sweep 11 true [memEx1, memEx2]).result.expired
                = ([memEx1, memEx2].filter (expiredP 11)).length
              ∧ expiredP 11 memEx1 = true
              ∧ (true = true →
                  ((MessageReaper.sweep 11 true [memEx1, memEx2]).tombstones.filter
                      (fun tb => tb.original_id == memEx1.id))
                    = [mkTombstone 11 memEx1]))))
      ∧ (memEx1.ttl = none →
          memEx1.id ∉ (MessageReaper.sweep 11 true [memEx1, memEx2]).deleted
            ∧ ((MessageReaper.sweep 11 true [memEx1, memEx2]).tombstones.filter
                (fun tb => tb.original_id == memEx1.id)) = []) :=
  sweep_ttl_expiry [memEx1, memEx2] 11 true memEx1 (by decide) (by decide)

/-! ## Per-message crypto (`ChatCrypto` in `src/skchat/crypto.py`).
The PGPy library calls inside the `try` blocks are modelled as oracle
functions: `pgpEnc recipientArmor content = (ciphertext, signature)` (or
an error) and `pgpDec content = plaintext` (or an error); the claims
only concern the idempotency branches taken before any PGPy work. -/

structure ChatMessage where
  id : String
  sender : String
  recipient : String
  content : String
  thread_id : Option String
  reply_to : Option String
  ttl : Option Nat
  encrypted : Bool
  signature : Option String
deriving DecidableEq, Repr

inductive CryptoErr
  | encryptionError (msg : String)
  | decryptionError (msg : String)
deriving DecidableEq, Repr

namespace ChatCrypto

/-- `ChatCrypto.encrypt_message`: a no-op on already-encrypted input,
otherwise PGP-encrypt to the recipient and sign, with failures raised
as `EncryptionError`. -/
def encrypt_message (pgpEnc : String → String → Except String (String × String))
    (message : ChatMessage) (recipient_public_armor : String) :
    Except CryptoErr ChatMessage :=
  if message.encrypted then Except.ok message
  else
    match pgpEnc recipient_public_armor message.content with
    | Except.ok (ciphertext, sig) =>
        Except.ok { message with
          content := ciphertext
          encrypted := true
          signature := some sig }
    | Except.error e =>
        Except.error (CryptoErr.encryptionError ("Failed to encrypt message: " ++ e))

/-- `ChatCrypto.decrypt_message`: a no-op on plaintext input, otherwise
PGP-decrypt with our private key, with failures raised as
`DecryptionError`. -/
def decrypt_message (pgpDec : String → Except String String)
    (message : ChatMessage) : Except CryptoErr ChatMessage :=
  if message.encrypted then
    match pgpDec message.content with
    | Except.ok plaintext =>
        Except.ok { message with
          content := plaintext
          encrypted := false }
    | Except.error e =>
        Except.error (CryptoErr.decryptionError ("Failed to decrypt message: " ++ e))
  else Except.ok message

end ChatCrypto

/-- C8.
Double-encrypt and decrypt-of-plaintext are explicit success no-ops,
whatever the PGP backend does: `encrypt_message` on an
already-encrypted message returns it unchanged without error, and
`decrypt_message` on a plaintext message returns it unchanged without
error. -/
theorem crypto_noop_paths
    (pgpEnc : String → String → Except String (String × String))
    (pgpDec : String → Except String String)
    (m1 m2 : ChatMessage) (armor : String)
    (h1 : m1.encrypted = true) (h2 : m2.encrypted = false) :
    ChatCrypto.encrypt_message pgpEnc m1 armor = Except.ok m1
      ∧ ChatCrypto.decrypt_message pgpDec m2 = Except.ok m2 := by
  constructor
  · rw [ChatCrypto.encrypt_message, if_pos h1]
  · rw [ChatCrypto.decrypt_message, if_neg (by rw [h2]; exact Bool.false_ne_true)]

/-- Messages used by the C8 witness. -/
def msgEnc : ChatMessage :=
  { id := "m-enc", sender := "sk:alice", recipient := "sk:bob",
    content := "-----BEGIN PGP MESSAGE-----", thread_id := none, reply_to := none,
    ttl := none, encrypted := true, signature := none }

def msgPlain : ChatMessage :=
  { id := "m-pt", sender := "sk:bob", recipient := "sk:alice",
    content := "hello", thread_id := none, reply_to := none,
    ttl := none, encrypted := false, signature := none }

/-- Concrete witness for C8 with a PGP backend that always fails —
the no-op branches never reach it. -/
theorem crypto_noop_paths_witness :
    ChatCrypto.encrypt_message (fun _ _ => Except.error "backend down") msgEnc "armor"
        = Except.ok msgEnc
      ∧ ChatCrypto.decrypt_message (fun _ => Except.error "backend down") msgPlain
        = Except.ok msgPlain :=
  crypto_noop_paths (fun _ _ => Except.error "backend down")
    (fun _ => Except.error "backend down") msgEnc msgPlain "armor" (by decide) (by decide)
